import Mathlib

/-
  Shallow embedding of `src/main.rs`, a Bevy application animating and moving a
  fox model.  Three pieces of the source are embedded:

  * `keyboard_animation_control` (animation controller, lines 146-228),
  * `follow_fox` (follow camera, lines 233-254),
  * `move_fox` (locomotion, lines 256-291).

  Machine floats are modelled as exact numbers: the animation playback state
  uses ℚ and the geometry uses ℝ.  Rotations (Rust `Quat`) are modelled by the
  rotation matrix they represent: the source only ever builds rotations from
  `Quat::from_rotation_y` / the look-at frame and applies them to vectors, so
  the matrix encodes exactly the same data.  Rust `Option::unwrap` and
  out-of-bounds indexing (the panic paths) are modelled by returning `none`
  from the embedded step function, so "the step does not panic" is
  "the embedded step returns `some`".

  The per-instance playback operations (`ActiveAnimation`,
  `AnimationTransitions::play`, `AnimationPlayer::start`) live in the engine,
  an external collaborator of the repository; they are modelled after the
  collaborator contract that the spec states for them (pause/resume, get/set
  speed, get/set elapsed seek time, set repeat policy, replay-from-zero, and
  "start/transition to clip X over duration D" keeping the outgoing instance
  alive until its crossfade window elapses).
-/

set_option maxHeartbeats 1000000
set_option maxRecDepth 8192

namespace FoxForNora

/-! ### Animation data model -/

/-- Repeat policy of one clip instance (engine collaborator type
`RepeatAnimation`): play once, play `n` times, or loop forever. -/
inductive RepeatAnimation where
  | Never : RepeatAnimation
  | Count : ℕ → RepeatAnimation
  | Forever : RepeatAnimation
deriving DecidableEq

/-- Playback state of one clip instance (engine collaborator type
`ActiveAnimation`): blend weight, repeat policy, speed multiplier, elapsed
time, seek time, completion counter and the paused flag. -/
structure ActiveAnimation where
  weight : ℚ
  repeatMode : RepeatAnimation
  speed : ℚ
  elapsed : ℚ
  seek_time : ℚ
  completions : ℕ
  paused : Bool
deriving DecidableEq

/-- Default playback state of a freshly started clip instance. -/
def ActiveAnimation.default : ActiveAnimation :=
  { weight := 1, repeatMode := RepeatAnimation.Never, speed := 1, elapsed := 0,
    seek_time := 0, completions := 0, paused := false }

/-- Collaborator operation: pause the clip instance. -/
def ActiveAnimation.pause (a : ActiveAnimation) : ActiveAnimation :=
  { a with paused := true }

/-- Collaborator operation: resume the clip instance. -/
def ActiveAnimation.resume (a : ActiveAnimation) : ActiveAnimation :=
  { a with paused := false }

/-- Collaborator operation: set the speed multiplier. -/
def ActiveAnimation.set_speed (a : ActiveAnimation) (s : ℚ) : ActiveAnimation :=
  { a with speed := s }

/-- Collaborator operation: set the seek time. -/
def ActiveAnimation.seek_to (a : ActiveAnimation) (t : ℚ) : ActiveAnimation :=
  { a with seek_time := t }

/-- Collaborator operation: set the repeat policy. -/
def ActiveAnimation.set_repeat (a : ActiveAnimation) (r : RepeatAnimation) : ActiveAnimation :=
  { a with repeatMode := r }

/-- Collaborator operation: replay from zero (resets the completion counter,
the elapsed time and the seek time; the pause flag is untouched). -/
def ActiveAnimation.replay (a : ActiveAnimation) : ActiveAnimation :=
  { a with completions := 0, elapsed := 0, seek_time := 0 }

/-- The animation player's table of active clip instances, keyed by animation
node index (engine collaborator state: `AnimationPlayer.active_animations`). -/
abbrev AnimTable := List (ℕ × ActiveAnimation)

/-- Collaborator query `AnimationPlayer::animation_mut`: look up the clip
instance attached to node index `i` (`none` models a failed lookup, which the
source unwraps). -/
def animation_mut (p : AnimTable) (i : ℕ) : Option ActiveAnimation :=
  match p with
  | [] => none
  | e :: t => if e.1 = i then some e.2 else animation_mut t i

/-- Apply a mutation through the reference returned by `animation_mut`:
rewrite the instance stored at key `i`. -/
def setAt (p : AnimTable) (i : ℕ) (f : ActiveAnimation → ActiveAnimation) : AnimTable :=
  match p with
  | [] => []
  | e :: t => (if e.1 = i then (e.1, f e.2) else e) :: setAt t i f

/-- Collaborator query `player.playing_animations().next()`: the node index of
the first currently active clip instance, if any. -/
def playingFirst (p : AnimTable) : Option ℕ :=
  match p with
  | [] => none
  | e :: _ => some e.1

/-- Collaborator operation `AnimationPlayer::start`: fetch-or-insert the
instance for node `n` and replay it from zero. -/
def startAnimation (p : AnimTable) (n : ℕ) : AnimTable :=
  if (animation_mut p n).isSome then setAt p n ActiveAnimation.replay
  else p ++ [(n, ActiveAnimation.default.replay)]

/-- A pending crossfade of an outgoing clip instance (engine collaborator type
`AnimationTransition`): its weight when the fade began, the weight decline per
second (the reciprocal of the crossfade duration) and its node index. -/
structure AnimationTransition where
  current_weight : ℚ
  weight_decline_per_sec : ℚ
  animation : ℕ
deriving DecidableEq

/-- Engine collaborator state `AnimationTransitions`: the node index of the
main (most recently started) animation and the list of pending fade-outs. -/
structure AnimationTransitions where
  main_animation : Option ℕ
  transitions : List AnimationTransition
deriving DecidableEq

/-- One animated entity as the keyboard handler sees it: its animation player
table together with its `AnimationTransitions` component. -/
structure PlayerEnt where
  player : AnimTable
  transitions : AnimationTransitions
deriving DecidableEq

/-- Collaborator operation `AnimationTransitions::play` followed by the
source's `.repeat()` call: remember the outgoing main animation as a pending
crossfade (if it exists and is not paused), make `newAnim` the main animation,
start it replayed-from-zero, and set its repeat policy to `Forever`.
`durationSecs` is the crossfade duration in seconds. -/
def transitionsPlay (pe : PlayerEnt) (newAnim : ℕ) (durationSecs : ℚ) : PlayerEnt :=
  let old := pe.transitions.main_animation
  let ts :=
    match old with
    | some oldIdx =>
      match animation_mut pe.player oldIdx with
      | some oldAnim =>
        if oldAnim.paused then pe.transitions.transitions
        else pe.transitions.transitions ++
          [{ current_weight := oldAnim.weight,
             weight_decline_per_sec := 1 / durationSecs,
             animation := oldIdx }]
      | none => pe.transitions.transitions
    | none => pe.transitions.transitions
  let p := startAnimation pe.player newAnim
  let p := setAt p newAnim (fun a => { a with repeatMode := RepeatAnimation.Forever })
  { player := p,
    transitions := { main_animation := some newAnim, transitions := ts } }

/-- The just-pressed state of the keys read by `keyboard_animation_control`. -/
structure Keys where
  space : Bool
  up : Bool
  down : Bool
  left : Bool
  right : Bool
  enter : Bool
  digit1 : Bool
  digit3 : Bool
  digit5 : Bool
  keyL : Bool
deriving DecidableEq

/-- No key was just pressed. -/
def noKeys : Keys :=
  { space := false, up := false, down := false, left := false, right := false,
    enter := false, digit1 := false, digit3 := false, digit5 := false,
    keyL := false }

/-- Only Enter (CycleClip) was just pressed. -/
def enterKeys : Keys := { noKeys with enter := true }

/-- Only digit 1 was just pressed. -/
def digit1Keys : Keys := { noKeys with digit1 := true }

/-- Only digit 3 was just pressed. -/
def digit3Keys : Keys := { noKeys with digit3 := true }

/-- Only digit 5 was just pressed. -/
def digit5Keys : Keys := { noKeys with digit5 := true }

/-- Only L was just pressed. -/
def keyLKeys : Keys := { noKeys with keyL := true }

/-- The source's `player.animation_mut(playing_animation_index).unwrap()`
followed by a mutation of the returned instance: `none` models the panic of
`unwrap`. -/
def mutAnim (idx : ℕ) (f : ActiveAnimation → ActiveAnimation)
    (s : PlayerEnt × ℕ) : Option (PlayerEnt × ℕ) :=
  (animation_mut s.1.player idx).map
    (fun _ => ({ s.1 with player := setAt s.1.player idx f }, s.2))

/-- Run `f` when the key was just pressed, otherwise leave the state alone. -/
def applyIf (b : Bool) (f : α → Option α) (x : α) : Option α :=
  if b then f x else some x

/-- The Enter handler (source lines 190-200): advance `current_animation`
modulo the clip-set size, then start a 250 ms crossfade to that clip with
repeat-forever policy.  `anims[cur]?` models the panicking Rust indexing
`animations.animations[*current_animation]`. -/
def enterStep (anims : List ℕ) (s : PlayerEnt × ℕ) : Option (PlayerEnt × ℕ) :=
  let cur := (s.2 + 1) % anims.length
  (anims[cur]?).map (fun node => (transitionsPlay s.1 node (1/4), cur))

/-- One loop iteration of `keyboard_animation_control` (source lines 152-227)
for one animated entity: the guard `let Some((&playing_animation_index, _)) =
player.playing_animations().next() else continue`, then the ten key handlers
in source order.  The second component of the state is the `current_animation`
local.  `none` models a panic. -/
def keyboard_animation_control_entity (keys : Keys) (anims : List ℕ)
    (s : PlayerEnt × ℕ) : Option (PlayerEnt × ℕ) :=
  match playingFirst s.1.player with
  | none => some s
  | some idx =>
    (applyIf keys.space
        (mutAnim idx (fun a => if a.paused then a.resume else a.pause)) s).bind
    (fun s => (applyIf keys.up
        (mutAnim idx (fun a => a.set_speed (a.speed * (6/5)))) s).bind
    (fun s => (applyIf keys.down
        (mutAnim idx (fun a => a.set_speed (a.speed * (4/5)))) s).bind
    (fun s => (applyIf keys.left
        (mutAnim idx (fun a => a.seek_to (a.seek_time - 1/10))) s).bind
    (fun s => (applyIf keys.right
        (mutAnim idx (fun a => a.seek_to (a.seek_time + 1/10))) s).bind
    (fun s => (applyIf keys.enter (enterStep anims) s).bind
    (fun s => (applyIf keys.digit1
        (mutAnim idx (fun a => (a.set_repeat (RepeatAnimation.Count 1)).replay)) s).bind
    (fun s => (applyIf keys.digit3
        (mutAnim idx (fun a => (a.set_repeat (RepeatAnimation.Count 3)).replay)) s).bind
    (fun s => (applyIf keys.digit5
        (mutAnim idx (fun a => (a.set_repeat (RepeatAnimation.Count 5)).replay)) s).bind
    (fun s => applyIf keys.keyL
        (mutAnim idx (fun a => a.set_repeat RepeatAnimation.Forever)) s)))))))))

/-- The whole `keyboard_animation_control` system for one frame: the loop over
every `(AnimationPlayer, AnimationTransitions)` query row, threading the
`current_animation` local through.  `none` models a panic. -/
def keyboard_animation_control (keys : Keys) (anims : List ℕ) :
    List PlayerEnt → ℕ → Option (List PlayerEnt × ℕ)
  | [], current => some ([], current)
  | pe :: rest, current =>
    (keyboard_animation_control_entity keys anims (pe, current)).bind
      (fun s => (keyboard_animation_control keys anims rest s.2).bind
        (fun r => some (s.1 :: r.1, r.2)))

/-- `n` frames in a row in which only Enter is just pressed. -/
def cycleNTimes (anims : List ℕ) : ℕ → PlayerEnt × ℕ → Option (PlayerEnt × ℕ)
  | 0, s => some s
  | n + 1, s =>
    (keyboard_animation_control_entity enterKeys anims s).bind (cycleNTimes anims n)

/-- What one CycleClip frame does, and that `anims.length` of them restore the
index: the statement of the C3 claim at state `(pe, c)`. -/
def cycleSpec (anims : List ℕ) (pe : PlayerEnt) (c : ℕ) : Prop :=
  (∃ pe', keyboard_animation_control_entity enterKeys anims (pe, c) =
      some (pe', (c + 1) % anims.length) ∧
    pe'.transitions.main_animation = some (anims.getD ((c + 1) % anims.length) 0) ∧
    (∃ a, animation_mut pe'.player (anims.getD ((c + 1) % anims.length) 0) = some a ∧
      a.repeatMode = RepeatAnimation.Forever ∧ a.seek_time = 0 ∧ a.elapsed = 0) ∧
    (∀ old oldA, pe.transitions.main_animation = some old →
      animation_mut pe.player old = some oldA → oldA.paused = false →
      pe'.transitions.transitions = pe.transitions.transitions ++
        [{ current_weight := oldA.weight, weight_decline_per_sec := 4,
           animation := old }])) ∧
  (c < anims.length →
    ∃ s, cycleNTimes anims anims.length (pe, c) = some s ∧ s.2 = c)

/-- What the digit handlers and the L handler do to the playing instance `a`:
the statement of the C4 claim at state `(pe, c)`. -/
def setRepeatSpec (anims : List ℕ) (pe : PlayerEnt) (c : ℕ) (idx : ℕ)
    (a : ActiveAnimation) : Prop :=
  (∃ p1, keyboard_animation_control_entity digit1Keys anims (pe, c) = some (p1, c) ∧
    animation_mut p1.player idx = some
      { a with repeatMode := RepeatAnimation.Count 1, completions := 0,
               elapsed := 0, seek_time := 0 }) ∧
  (∃ p3, keyboard_animation_control_entity digit3Keys anims (pe, c) = some (p3, c) ∧
    animation_mut p3.player idx = some
      { a with repeatMode := RepeatAnimation.Count 3, completions := 0,
               elapsed := 0, seek_time := 0 }) ∧
  (∃ p5, keyboard_animation_control_entity digit5Keys anims (pe, c) = some (p5, c) ∧
    animation_mut p5.player idx = some
      { a with repeatMode := RepeatAnimation.Count 5, completions := 0,
               elapsed := 0, seek_time := 0 }) ∧
  (∃ pL, keyboard_animation_control_entity keyLKeys anims (pe, c) = some (pL, c) ∧
    animation_mut pL.player idx = some { a with repeatMode := RepeatAnimation.Forever })

/-- A concrete single-entity animation state used to instantiate the theorems:
one clip instance on node 0, which is also the main animation. -/
def demoPE : PlayerEnt :=
  { player := [(0, ActiveAnimation.default)],
    transitions := { main_animation := some 0, transitions := [] } }

/-- The clip instance the guard found is present in the player table: the
invariant threaded through the key handlers. -/
def GoodAt (idx : ℕ) (s : PlayerEnt × ℕ) : Prop :=
  (animation_mut s.1.player idx).isSome

/-! ### Geometry: vectors, rotations, transforms

`f32` arithmetic is modelled over ℝ. -/

open scoped Classical

/-- Rust/glam `Vec3`. -/
@[ext]
structure Vec3 where
  x : ℝ
  y : ℝ
  z : ℝ

/-- Rust `Vec3::ZERO`. -/
def Vec3.zero : Vec3 := ⟨0, 0, 0⟩

instance : Add Vec3 := ⟨fun a b => ⟨a.x + b.x, a.y + b.y, a.z + b.z⟩⟩

instance : Sub Vec3 := ⟨fun a b => ⟨a.x - b.x, a.y - b.y, a.z - b.z⟩⟩

instance : Neg Vec3 := ⟨fun a => ⟨-a.x, -a.y, -a.z⟩⟩

instance : HMul Vec3 ℝ Vec3 := ⟨fun v c => ⟨v.x * c, v.y * c, v.z * c⟩⟩

/-- glam `Vec3::dot`. -/
def Vec3.dot (a b : Vec3) : ℝ := a.x * b.x + a.y * b.y + a.z * b.z

/-- glam `Vec3::length`. -/
noncomputable def Vec3.length (v : Vec3) : ℝ := Real.sqrt (v.dot v)

/-- glam `Vec3::normalize`: divide every component by the length. -/
noncomputable def Vec3.normalize (v : Vec3) : Vec3 :=
  ⟨v.x / v.length, v.y / v.length, v.z / v.length⟩

/-- glam `Vec3::cross`. -/
def Vec3.cross (a b : Vec3) : Vec3 :=
  ⟨a.y * b.z - a.z * b.y, a.z * b.x - a.x * b.z, a.x * b.y - a.y * b.x⟩

/-- glam `Vec3::any_orthonormal_vector` (used by the look-at computation when
the view direction is parallel to the up vector); Rust `f32::signum` is `1`
for non-negative input and `-1` otherwise. -/
noncomputable def Vec3.anyOrthonormalVector (v : Vec3) : Vec3 :=
  let sign : ℝ := if 0 ≤ v.z then 1 else -1
  let a := -1 / (sign + v.z)
  let b := v.x * v.y * a
  ⟨b, sign + v.y * v.y * a, -v.y⟩

/-- A rotation, modelled by the rotation matrix it represents, stored as its
three columns (the images of the basis vectors), exactly as glam's `Mat3`. -/
@[ext]
structure Mat3 where
  xAxis : Vec3
  yAxis : Vec3
  zAxis : Vec3

/-- Apply the rotation to a vector (glam `Mat3::mul_vec3`, Bevy
`Quat::mul_vec3`). -/
def Mat3.mulVec3 (m : Mat3) (v : Vec3) : Vec3 :=
  m.xAxis * v.x + m.yAxis * v.y + m.zAxis * v.z

/-- The rotation about the Y axis by `angle` radians
(`Quat::from_rotation_y`, as a matrix). -/
noncomputable def Mat3.fromRotationY (angle : ℝ) : Mat3 :=
  ⟨⟨Real.cos angle, 0, -Real.sin angle⟩, ⟨0, 1, 0⟩,
   ⟨Real.sin angle, 0, Real.cos angle⟩⟩

/-- The identity rotation. -/
def Mat3.id : Mat3 := ⟨⟨1, 0, 0⟩, ⟨0, 1, 0⟩, ⟨0, 0, 1⟩⟩

/-- Rust `f32::atan2`: `y.atan2 x` is the angle of the point `(x, y)`,
in `(-π, π]`. -/
noncomputable def atan2 (y x : ℝ) : ℝ := Complex.arg ⟨x, y⟩

/-- Bevy `Transform`, restricted to the fields the source uses: translation
and rotation (the source never reads or writes `scale`). -/
@[ext]
structure Transform where
  translation : Vec3
  rotation : Mat3

/-- Bevy `Transform::forward`: the local forward axis, the rotated `-Z`. -/
noncomputable def Transform.forward (t : Transform) : Vec3 :=
  t.rotation.mulVec3 ⟨0, 0, -1⟩

/-- Bevy `Transform::look_at target up` (via glam's right-handed look-to):
keep the translation, and set the rotation to the frame whose back column is
the normalized direction towards `target`, negated; degenerate inputs fall
back exactly as in the engine (`Dir3::NEG_Z` for a zero view direction,
`Dir3::Y` for a zero up vector, an arbitrary orthonormal vector when the view
direction is parallel to up). -/
noncomputable def Transform.look_at (t : Transform) (target : Vec3) (up : Vec3) : Transform :=
  let direction := target - t.translation
  let back := -(if direction ≠ Vec3.zero then direction.normalize else ⟨0, 0, -1⟩)
  let upN := if up ≠ Vec3.zero then up.normalize else ⟨0, 1, 0⟩
  let c := upN.cross back
  let right := if c ≠ Vec3.zero then c.normalize else upN.anyOrthonormalVector
  let newUp := back.cross right
  { t with rotation := ⟨right, newUp, back⟩ }

/-! ### Locomotion controller (`move_fox`, source lines 256-291) -/

/-- The held state of the four directional keys read by `move_fox`. -/
structure DirInput where
  w : Bool
  s : Bool
  a : Bool
  d : Bool
deriving DecidableEq

/-- Only W is held. -/
def inputW : DirInput := { w := true, s := false, a := false, d := false }

/-- The raw direction summed from the four key axes (source lines 262-276):
W and S add ∓1 to `z`, A and D add ∓1 to `x`. -/
def rawDirection (i : DirInput) : Vec3 :=
  let direction := Vec3.zero
  let direction := if i.w then { direction with z := direction.z - 1 } else direction
  let direction := if i.s then { direction with z := direction.z + 1 } else direction
  let direction := if i.a then { direction with x := direction.x - 1 } else direction
  let direction := if i.d then { direction with x := direction.x + 1 } else direction
  direction

/-- The movement direction after the normalization guard (source lines
278-281): normalize the raw direction unless it is the zero vector. -/
noncomputable def moveDirection (i : DirInput) : Vec3 :=
  let direction := rawDirection i
  if direction ≠ Vec3.zero then direction.normalize else direction

/-- One `move_fox` frame for the fox entity (source lines 261-290):
integrate `translation += direction * speed * dt` and, when the direction is
non-zero, face it by setting the rotation to
`Quat::from_rotation_y (-(direction.x.atan2 direction.z))`. -/
noncomputable def move_fox (dt speed : ℝ) (i : DirInput) (t : Transform) : Transform :=
  let direction := moveDirection i
  { translation := t.translation + direction * speed * dt,
    rotation :=
      if direction ≠ Vec3.zero then Mat3.fromRotationY (-(atan2 direction.x direction.z))
      else t.rotation }

/-! ### Follow camera controller (`follow_fox`, source lines 233-254) -/

/-- One `follow_fox` update for a camera, given the fox transform (source
lines 238-252): place the camera at the fox position plus the fox's rotated
`+Z` axis times the offset's `z` component `-300`, override the height to the
fox height plus `200`, then aim at the fox with world up `Y`. -/
noncomputable def follow_fox (foxT camT : Transform) : Transform :=
  let fox_forward := foxT.rotation.mulVec3 ⟨0, 0, 1⟩
  let camera_offset : Vec3 := ⟨0, 200, -300⟩
  let camera_position := foxT.translation + fox_forward * camera_offset.z
  let camT' : Transform :=
    { camT with
      translation :=
        ⟨camera_position.x, foxT.translation.y + camera_offset.y, camera_position.z⟩ }
  camT'.look_at foxT.translation ⟨0, 1, 0⟩

/-- The whole `follow_fox` system for one frame: `fox_query.get_single()`
succeeds only when the query matches exactly one fox entity, otherwise the
camera transform is left untouched. -/
noncomputable def follow_fox_system (foxes : List Transform) (cam : Transform) : Transform :=
  match foxes with
  | [f] => follow_fox f cam
  | _ => cam

/-- The transform of a character standing at the origin facing `+Z` in Bevy's
convention (`Transform::forward` is the rotated `-Z`, so facing `+Z` is a yaw
of π). -/
noncomputable def originFacingPlusZ : Transform :=
  { translation := Vec3.zero, rotation := Mat3.fromRotationY Real.pi }

/-- A concrete camera transform used to instantiate the theorems. -/
def demoCam : Transform := { translation := Vec3.zero, rotation := Mat3.id }

/-- A concrete fox transform used to instantiate the theorems. -/
def demoFox : Transform := { translation := Vec3.zero, rotation := Mat3.id }

/-- W and S held together. -/
def inputWS : DirInput := { w := true, s := true, a := false, d := false }

/-! ### Component lemmas for the vector algebra -/

@[simp]
theorem Vec3.add_x (a b : Vec3) : (a + b).x = a.x + b.x := rfl

@[simp]
theorem Vec3.add_y (a b : Vec3) : (a + b).y = a.y + b.y := rfl

@[simp]
theorem Vec3.add_z (a b : Vec3) : (a + b).z = a.z + b.z := rfl

@[simp]
theorem Vec3.sub_x (a b : Vec3) : (a - b).x = a.x - b.x := rfl

@[simp]
theorem Vec3.sub_y (a b : Vec3) : (a - b).y = a.y - b.y := rfl

@[simp]
theorem Vec3.sub_z (a b : Vec3) : (a - b).z = a.z - b.z := rfl

@[simp]
theorem Vec3.neg_x (a : Vec3) : (-a).x = -a.x := rfl

@[simp]
theorem Vec3.neg_y (a : Vec3) : (-a).y = -a.y := rfl

@[simp]
theorem Vec3.neg_z (a : Vec3) : (-a).z = -a.z := rfl

@[simp]
theorem Vec3.smul_x (a : Vec3) (c : ℝ) : (a * c).x = a.x * c := rfl

@[simp]
theorem Vec3.smul_y (a : Vec3) (c : ℝ) : (a * c).y = a.y * c := rfl

@[simp]
theorem Vec3.smul_z (a : Vec3) (c : ℝ) : (a * c).z = a.z * c := rfl

@[simp]
theorem Vec3.zero_x : Vec3.zero.x = 0 := rfl

@[simp]
theorem Vec3.zero_y : Vec3.zero.y = 0 := rfl

@[simp]
theorem Vec3.zero_z : Vec3.zero.z = 0 := rfl

theorem Vec3.ne_zero_iff (v : Vec3) :
    v ≠ Vec3.zero ↔ ¬(v.x = 0 ∧ v.y = 0 ∧ v.z = 0) := by
  constructor
  · intro h hc
    exact h (Vec3.ext hc.1 hc.2.1 hc.2.2)
  · intro h hv
    exact h ⟨by rw [hv]; rfl, by rw [hv]; rfl, by rw [hv]; rfl⟩

theorem Vec3.sub_eq_zero_iff (a b : Vec3) : a - b = Vec3.zero ↔ a = b := by
  constructor
  · intro h
    have hx := congrArg Vec3.x h
    have hy := congrArg Vec3.y h
    have hz := congrArg Vec3.z h
    simp only [Vec3.sub_x, Vec3.sub_y, Vec3.sub_z, Vec3.zero_x, Vec3.zero_y,
      Vec3.zero_z, sub_eq_zero] at hx hy hz
    exact Vec3.ext hx hy hz
  · intro h
    rw [h]
    exact Vec3.ext (by simp) (by simp) (by simp)

/-! ### Lemmas about the animation table -/

theorem animation_mut_setAt_isSome (p : AnimTable) (j i : ℕ)
    (f : ActiveAnimation → ActiveAnimation) :
    (animation_mut (setAt p j f) i).isSome = (animation_mut p i).isSome := by
  induction p with
  | nil => rfl
  | cons e t ih =>
    have hfst : ((if e.1 = j then (e.1, f e.2) else e) : ℕ × ActiveAnimation).1 = e.1 := by
      split <;> rfl
    simp only [setAt, animation_mut, hfst]
    by_cases hi : e.1 = i
    · simp [hi]
    · simp [hi, ih]

theorem animation_mut_setAt_self {p : AnimTable} {i : ℕ} {a : ActiveAnimation}
    (h : animation_mut p i = some a) (f : ActiveAnimation → ActiveAnimation) :
    animation_mut (setAt p i f) i = some (f a) := by
  induction p with
  | nil => exact absurd h (by simp [animation_mut])
  | cons e t ih =>
    by_cases hi : e.1 = i
    · rw [animation_mut, if_pos hi] at h
      obtain rfl : e.2 = a := Option.some_injective _ h
      simp [setAt, animation_mut, hi]
    · rw [animation_mut, if_neg hi] at h
      simp [setAt, animation_mut, hi, ih h]

theorem animation_mut_append_of_none {p : AnimTable} {i : ℕ}
    (h : animation_mut p i = none) (q : AnimTable) :
    animation_mut (p ++ q) i = animation_mut q i := by
  induction p with
  | nil => rfl
  | cons e t ih =>
    by_cases hi : e.1 = i
    · rw [animation_mut, if_pos hi] at h
      exact absurd h (by simp)
    · rw [animation_mut, if_neg hi] at h
      simpa [animation_mut, hi] using ih h

theorem animation_mut_append_of_isSome {p : AnimTable} {i : ℕ}
    (h : (animation_mut p i).isSome) (q : AnimTable) :
    animation_mut (p ++ q) i = animation_mut p i := by
  induction p with
  | nil => simp [animation_mut] at h
  | cons e t ih =>
    by_cases hi : e.1 = i
    · simp [animation_mut, hi]
    · rw [animation_mut, if_neg hi] at h
      simpa [animation_mut, hi] using ih h

theorem playingFirst_setAt (p : AnimTable) (j : ℕ)
    (f : ActiveAnimation → ActiveAnimation) :
    playingFirst (setAt p j f) = playingFirst p := by
  cases p with
  | nil => rfl
  | cons e t =>
    by_cases hj : e.1 = j <;> simp [setAt, playingFirst, hj]

theorem playingFirst_append_of_some {p : AnimTable} {idx : ℕ}
    (h : playingFirst p = some idx) (q : AnimTable) :
    playingFirst (p ++ q) = some idx := by
  cases p with
  | nil => exact absurd h (by simp [playingFirst])
  | cons e t => simpa [playingFirst] using h

theorem playingFirst_animation_mut_isSome {p : AnimTable} {idx : ℕ}
    (h : playingFirst p = some idx) : (animation_mut p idx).isSome := by
  cases p with
  | nil => exact absurd h (by simp [playingFirst])
  | cons e t =>
    have he : e.1 = idx := by simpa [playingFirst] using h
    simp [animation_mut, he]

theorem animation_mut_startAnimation_self (p : AnimTable) (n : ℕ) :
    ∃ b, animation_mut (startAnimation p n) n = some b ∧
      b.elapsed = 0 ∧ b.seek_time = 0 ∧ b.completions = 0 := by
  unfold startAnimation
  by_cases h : (animation_mut p n).isSome
  · rw [if_pos h]
    obtain ⟨a, ha⟩ := Option.isSome_iff_exists.mp h
    exact ⟨a.replay, animation_mut_setAt_self ha _, rfl, rfl, rfl⟩
  · rw [if_neg h]
    have hn : animation_mut p n = none := Option.not_isSome_iff_eq_none.mp h
    rw [animation_mut_append_of_none hn]
    exact ⟨ActiveAnimation.default.replay, by simp [animation_mut], rfl, rfl, rfl⟩

theorem animation_mut_startAnimation_isSome {p : AnimTable} {i : ℕ}
    (h : (animation_mut p i).isSome) (n : ℕ) :
    (animation_mut (startAnimation p n) i).isSome := by
  unfold startAnimation
  by_cases hn : (animation_mut p n).isSome
  · rw [if_pos hn, animation_mut_setAt_isSome]
    exact h
  · rw [if_neg hn, animation_mut_append_of_isSome h]
    exact h

theorem playingFirst_startAnimation {p : AnimTable} {idx : ℕ}
    (h : playingFirst p = some idx) (n : ℕ) :
    playingFirst (startAnimation p n) = some idx := by
  unfold startAnimation
  by_cases hn : (animation_mut p n).isSome
  · rw [if_pos hn, playingFirst_setAt]
    exact h
  · rw [if_neg hn]
    exact playingFirst_append_of_some h _

theorem transitionsPlay_player (pe : PlayerEnt) (n : ℕ) (d : ℚ) :
    (transitionsPlay pe n d).player =
      setAt (startAnimation pe.player n) n
        (fun a => { a with repeatMode := RepeatAnimation.Forever }) := rfl

theorem transitionsPlay_main (pe : PlayerEnt) (n : ℕ) (d : ℚ) :
    (transitionsPlay pe n d).transitions.main_animation = some n := rfl

theorem animation_mut_transitionsPlay_self (pe : PlayerEnt) (n : ℕ) (d : ℚ) :
    ∃ b, animation_mut (transitionsPlay pe n d).player n = some b ∧
      b.repeatMode = RepeatAnimation.Forever ∧ b.seek_time = 0 ∧ b.elapsed = 0 := by
  obtain ⟨b0, hb0, he, hs, _⟩ := animation_mut_startAnimation_self pe.player n
  refine ⟨{ b0 with repeatMode := RepeatAnimation.Forever }, ?_, rfl, hs, he⟩
  rw [transitionsPlay_player]
  exact animation_mut_setAt_self hb0 _

theorem animation_mut_transitionsPlay_isSome {pe : PlayerEnt} {i : ℕ}
    (h : (animation_mut pe.player i).isSome) (n : ℕ) (d : ℚ) :
    (animation_mut (transitionsPlay pe n d).player i).isSome := by
  rw [transitionsPlay_player, animation_mut_setAt_isSome]
  exact animation_mut_startAnimation_isSome h n

theorem playingFirst_transitionsPlay {pe : PlayerEnt} {idx : ℕ}
    (h : playingFirst pe.player = some idx) (n : ℕ) (d : ℚ) :
    playingFirst (transitionsPlay pe n d).player = some idx := by
  rw [transitionsPlay_player, playingFirst_setAt]
  exact playingFirst_startAnimation h n

theorem transitionsPlay_transitions_of_old {pe : PlayerEnt} {old : ℕ}
    {oldA : ActiveAnimation} (n : ℕ) (d : ℚ)
    (h1 : pe.transitions.main_animation = some old)
    (h2 : animation_mut pe.player old = some oldA) (h3 : oldA.paused = false) :
    (transitionsPlay pe n d).transitions.transitions =
      pe.transitions.transitions ++
        [{ current_weight := oldA.weight, weight_decline_per_sec := 1 / d,
           animation := old }] := by
  simp [transitionsPlay, h1, h2, h3]

/-! ### C7 and C8 -/

/-- C7: if the tracked-target query finds zero or more than one matching
entity, the follow-camera update is skipped entirely and the camera transform
holds its last value. -/
theorem c7_follow_skip : ∀ (foxes : List Transform) (cam : Transform),
    foxes.length ≠ 1 → follow_fox_system foxes cam = cam := by
  intro foxes cam h
  match foxes with
  | [] => rfl
  | [f] => exact absurd rfl h
  | f :: g :: rest => rfl

theorem c7_follow_skip_witness :
    ([] : List Transform).length ≠ 1 ∧ follow_fox_system [] demoCam = demoCam :=
  ⟨by decide, c7_follow_skip [] demoCam (by decide)⟩

/-- C8: when no clip instance is active on an entity's animation player (or no
player entity exists at all), the whole keyboard animation step for that frame
is a silent no-op: it does not panic, and neither the playback state nor the
`current_animation` index changes, for every combination of pressed keys. -/
theorem c8_silent_skip : ∀ (keys : Keys) (anims : List ℕ) (c : ℕ),
    keyboard_animation_control keys anims [] c = some ([], c) ∧
    ∀ pe : PlayerEnt, playingFirst pe.player = none →
      keyboard_animation_control_entity keys anims (pe, c) = some (pe, c) := by
  intro keys anims c
  refine ⟨rfl, fun pe h => ?_⟩
  simp only [keyboard_animation_control_entity, h]

theorem c8_silent_skip_witness :
    playingFirst (PlayerEnt.mk [] ⟨none, []⟩).player = none ∧
    keyboard_animation_control enterKeys [1, 2, 3] [] 7 = some ([], 7) ∧
    keyboard_animation_control_entity enterKeys [1, 2, 3]
        (PlayerEnt.mk [] ⟨none, []⟩, 7) = some (PlayerEnt.mk [] ⟨none, []⟩, 7) :=
  ⟨rfl, (c8_silent_skip enterKeys [1, 2, 3] 7).1,
    (c8_silent_skip enterKeys [1, 2, 3] 7).2 _ rfl⟩

/-! ### C10: the keyboard handler never panics -/

theorem mutAnim_pres (idx : ℕ) (f : ActiveAnimation → ActiveAnimation) :
    ∀ s, GoodAt idx s → ∃ s', mutAnim idx f s = some s' ∧ GoodAt idx s' := by
  intro s hs
  obtain ⟨a, ha⟩ := Option.isSome_iff_exists.mp hs
  refine ⟨({ s.1 with player := setAt s.1.player idx f }, s.2), by simp [mutAnim, ha], ?_⟩
  unfold GoodAt
  rw [animation_mut_setAt_isSome]
  exact hs

theorem applyIf_pres (b : Bool) {f : PlayerEnt × ℕ → Option (PlayerEnt × ℕ)}
    {P : PlayerEnt × ℕ → Prop}
    (hf : ∀ s, P s → ∃ s', f s = some s' ∧ P s') :
    ∀ s, P s → ∃ s', applyIf b f s = some s' ∧ P s' := by
  intro s hs
  cases b
  · exact ⟨s, by simp [applyIf], hs⟩
  · simpa [applyIf] using hf s hs

theorem enterStep_pres {anims : List ℕ} (hlen : 0 < anims.length) (idx : ℕ) :
    ∀ s, GoodAt idx s → ∃ s', enterStep anims s = some s' ∧ GoodAt idx s' := by
  intro s hs
  have hcur : (s.2 + 1) % anims.length < anims.length := Nat.mod_lt _ hlen
  refine ⟨(transitionsPlay s.1 (anims[(s.2 + 1) % anims.length]) (1/4),
    (s.2 + 1) % anims.length), ?_, ?_⟩
  · simp [enterStep, List.getElem?_eq_getElem hcur]
  · exact animation_mut_transitionsPlay_isSome hs _ _

/-- C10: whenever the guard finds a playing clip instance, every later lookup
of that instance inside the keyboard handler succeeds (also the ones performed
after a cycle-clip transition was started in the same frame), so the embedded
step returns `some`: modelling `unwrap` and the clip-vector indexing as
`Option`, the frame never panics — for every key combination, player state and
non-empty clip set, at entity level and at system level. -/
theorem c10_no_panic : ∀ (keys : Keys) (anims : List ℕ), 0 < anims.length →
    (∀ s, (keyboard_animation_control_entity keys anims s).isSome) ∧
    (∀ (ents : List PlayerEnt) (c : ℕ),
      (keyboard_animation_control keys anims ents c).isSome) := by
  intro keys anims hlen
  have hent : ∀ s, (keyboard_animation_control_entity keys anims s).isSome := by
    intro s
    cases hpf : playingFirst s.1.player with
    | none => simp [keyboard_animation_control_entity, hpf]
    | some idx =>
      have h0 : GoodAt idx s := playingFirst_animation_mut_isSome hpf
      obtain ⟨s1, e1, g1⟩ := applyIf_pres keys.space
        (mutAnim_pres idx (fun a => if a.paused then a.resume else a.pause)) s h0
      obtain ⟨s2, e2, g2⟩ := applyIf_pres keys.up
        (mutAnim_pres idx (fun a => a.set_speed (a.speed * (6/5)))) s1 g1
      obtain ⟨s3, e3, g3⟩ := applyIf_pres keys.down
        (mutAnim_pres idx (fun a => a.set_speed (a.speed * (4/5)))) s2 g2
      obtain ⟨s4, e4, g4⟩ := applyIf_pres keys.left
        (mutAnim_pres idx (fun a => a.seek_to (a.seek_time - 1/10))) s3 g3
      obtain ⟨s5, e5, g5⟩ := applyIf_pres keys.right
        (mutAnim_pres idx (fun a => a.seek_to (a.seek_time + 1/10))) s4 g4
      obtain ⟨s6, e6, g6⟩ := applyIf_pres keys.enter (enterStep_pres hlen idx) s5 g5
      obtain ⟨s7, e7, g7⟩ := applyIf_pres keys.digit1
        (mutAnim_pres idx (fun a => (a.set_repeat (RepeatAnimation.Count 1)).replay)) s6 g6
      obtain ⟨s8, e8, g8⟩ := applyIf_pres keys.digit3
        (mutAnim_pres idx (fun a => (a.set_repeat (RepeatAnimation.Count 3)).replay)) s7 g7
      obtain ⟨s9, e9, g9⟩ := applyIf_pres keys.digit5
        (mutAnim_pres idx (fun a => (a.set_repeat (RepeatAnimation.Count 5)).replay)) s8 g8
      obtain ⟨s10, e10, g10⟩ := applyIf_pres keys.keyL
        (mutAnim_pres idx (fun a => a.set_repeat RepeatAnimation.Forever)) s9 g9
      simp only [keyboard_animation_control_entity, hpf]
      rw [e1]
      simp only [Option.some_bind]
      rw [e2]
      simp only [Option.some_bind]
      rw [e3]
      simp only [Option.some_bind]
      rw [e4]
      simp only [Option.some_bind]
      rw [e5]
      simp only [Option.some_bind]
      rw [e6]
      simp only [Option.some_bind]
      rw [e7]
      simp only [Option.some_bind]
      rw [e8]
      simp only [Option.some_bind]
      rw [e9]
      simp only [Option.some_bind]
      rw [e10]
      rfl
  refine ⟨hent, ?_⟩
  intro ents
  induction ents with
  | nil => intro c; simp [keyboard_animation_control]
  | cons pe rest ih =>
    intro c
    obtain ⟨s, hs⟩ := Option.isSome_iff_exists.mp (hent (pe, c))
    obtain ⟨r, hr⟩ := Option.isSome_iff_exists.mp (ih s.2)
    rw [keyboard_animation_control, hs]
    simp only [Option.some_bind]
    rw [hr]
    rfl

theorem c10_no_panic_witness :
    0 < ([10, 20, 30] : List ℕ).length ∧
    (keyboard_animation_control_entity enterKeys [10, 20, 30] (demoPE, 0)).isSome :=
  ⟨by decide, (c10_no_panic enterKeys [10, 20, 30] (by decide)).1 (demoPE, 0)⟩

/-! ### C3: cycling clips -/

theorem step_enter {anims : List ℕ} (hlen : 0 < anims.length) {s : PlayerEnt × ℕ}
    {idx : ℕ} (hpf : playingFirst s.1.player = some idx) :
    keyboard_animation_control_entity enterKeys anims s =
      some (transitionsPlay s.1 (anims.getD ((s.2 + 1) % anims.length) 0) (1/4),
        (s.2 + 1) % anims.length) := by
  have hcur : (s.2 + 1) % anims.length < anims.length := Nat.mod_lt _ hlen
  have hget : anims[(s.2 + 1) % anims.length]? =
      some (anims.getD ((s.2 + 1) % anims.length) 0) := by
    rw [List.getElem?_eq_getElem hcur, List.getD_eq_getElem?_getD,
      List.getElem?_eq_getElem hcur]
    rfl
  simp only [keyboard_animation_control_entity, hpf]
  simp only [enterKeys, noKeys, applyIf]
  simp only [Bool.false_eq_true, if_false, if_true, Option.some_bind]
  simp only [Option.bind_some]
  simp only [enterStep]
  rw [hget]
  rfl

theorem cycle_iter {anims : List ℕ} (hlen : 0 < anims.length) :
    ∀ (k : ℕ) (s : PlayerEnt × ℕ) (idx : ℕ), playingFirst s.1.player = some idx →
      ∃ s', cycleNTimes anims (k + 1) s = some s' ∧
        s'.2 = (s.2 + (k + 1)) % anims.length ∧
        playingFirst s'.1.player = some idx := by
  intro k
  induction k with
  | zero =>
    intro s idx hpf
    refine ⟨(transitionsPlay s.1 (anims.getD ((s.2 + 1) % anims.length) 0) (1/4),
      (s.2 + 1) % anims.length), ?_, rfl, playingFirst_transitionsPlay hpf _ _⟩
    rw [cycleNTimes, step_enter hlen hpf]
    rfl
  | succ k ih =>
    intro s idx hpf
    have hpf1 : playingFirst
        (transitionsPlay s.1 (anims.getD ((s.2 + 1) % anims.length) 0)
          (1/4)).player = some idx := playingFirst_transitionsPlay hpf _ _
    obtain ⟨s', he, hc, hp⟩ :=
      ih (transitionsPlay s.1 (anims.getD ((s.2 + 1) % anims.length) 0) (1/4),
        (s.2 + 1) % anims.length) idx hpf1
    refine ⟨s', ?_, ?_, hp⟩
    · rw [cycleNTimes, step_enter hlen hpf]
      simpa using he
    · rw [hc]
      show ((s.2 + 1) % anims.length + (k + 1)) % anims.length =
        (s.2 + (k + 1 + 1)) % anims.length
      rw [Nat.mod_add_mod]
      have harith : s.2 + 1 + (k + 1) = s.2 + (k + 1 + 1) := by omega
      rw [harith]

/-- C3: with a clip playing, a CycleClip frame (Enter just pressed) advances
`current_animation` to `(index + 1) % clip count`, makes that clip the main
animation with repeat-forever policy restarted from time zero, and queues a
250 ms crossfade of the outgoing unpaused clip (weight decline 4 per second =
1 / 0.25 s); consequently cycling exactly clip-count times returns
`current_animation` to its starting value. -/
theorem c3_cycle_clip : ∀ (anims : List ℕ) (pe : PlayerEnt) (c idx : ℕ),
    0 < anims.length → playingFirst pe.player = some idx →
    cycleSpec anims pe c := by
  intro anims pe c idx hlen hpf
  unfold cycleSpec
  constructor
  · refine ⟨transitionsPlay pe (anims.getD ((c + 1) % anims.length) 0) (1/4),
      step_enter hlen hpf, transitionsPlay_main _ _ _, ?_, ?_⟩
    · exact animation_mut_transitionsPlay_self pe _ _
    · intro old oldA h1 h2 h3
      rw [transitionsPlay_transitions_of_old _ _ h1 h2 h3]
      have h14 : (1 : ℚ) / (1/4) = 4 := by norm_num
      rw [h14]
  · intro hc
    obtain ⟨m, hm⟩ : ∃ m, anims.length = m + 1 := ⟨anims.length - 1, by omega⟩
    obtain ⟨s', he, hc2, _⟩ := cycle_iter hlen m (pe, c) idx hpf
    refine ⟨s', by rw [hm]; exact he, ?_⟩
    rw [hc2]
    show (c + (m + 1)) % anims.length = c
    rw [← hm, Nat.add_mod_right]
    exact Nat.mod_eq_of_lt hc

theorem c3_cycle_clip_witness :
    0 < ([10, 20, 30] : List ℕ).length ∧ playingFirst demoPE.player = some 0 ∧
    cycleSpec [10, 20, 30] demoPE 0 :=
  ⟨by decide, rfl, c3_cycle_clip [10, 20, 30] demoPE 0 0 (by decide) rfl⟩

/-! ### C4: repeat policy -/

/-- C4: with clip instance `a` playing (paused or not), pressing digit 1/3/5
sets the repeat policy to `Count n` and restarts the instance from elapsed
time zero (elapsed, seek time and completions reset, pause flag untouched),
while pressing L sets the policy to `Forever` and changes nothing else — in
particular it never resets the elapsed time. -/
theorem c4_set_repeat : ∀ (anims : List ℕ) (pe : PlayerEnt) (c idx : ℕ)
    (a : ActiveAnimation), playingFirst pe.player = some idx →
    animation_mut pe.player idx = some a → setRepeatSpec anims pe c idx a := by
  intro anims pe c idx a hpf ha
  unfold setRepeatSpec
  have e1 : keyboard_animation_control_entity digit1Keys anims (pe, c) =
      some ({ pe with player := setAt pe.player idx (fun a => (a.set_repeat (RepeatAnimation.Count 1)).replay) }, c) := by
    simp [keyboard_animation_control_entity, hpf, digit1Keys, noKeys, applyIf,
      mutAnim, ha]
  have e3 : keyboard_animation_control_entity digit3Keys anims (pe, c) =
      some ({ pe with player := setAt pe.player idx (fun a => (a.set_repeat (RepeatAnimation.Count 3)).replay) }, c) := by
    simp [keyboard_animation_control_entity, hpf, digit3Keys, noKeys, applyIf,
      mutAnim, ha]
  have e5 : keyboard_animation_control_entity digit5Keys anims (pe, c) =
      some ({ pe with player := setAt pe.player idx (fun a => (a.set_repeat (RepeatAnimation.Count 5)).replay) }, c) := by
    simp [keyboard_animation_control_entity, hpf, digit5Keys, noKeys, applyIf,
      mutAnim, ha]
  have eL : keyboard_animation_control_entity keyLKeys anims (pe, c) =
      some ({ pe with player := setAt pe.player idx (fun a => a.set_repeat RepeatAnimation.Forever) }, c) := by
    simp [keyboard_animation_control_entity, hpf, keyLKeys, noKeys, applyIf,
      mutAnim, ha]
  exact ⟨⟨_, e1, animation_mut_setAt_self ha _⟩,
    ⟨_, e3, animation_mut_setAt_self ha _⟩,
    ⟨_, e5, animation_mut_setAt_self ha _⟩,
    ⟨_, eL, animation_mut_setAt_self ha _⟩⟩

theorem c4_set_repeat_witness :
    playingFirst demoPE.player = some 0 ∧
    animation_mut demoPE.player 0 = some ActiveAnimation.default ∧
    setRepeatSpec [10, 20, 30] demoPE 0 0 ActiveAnimation.default :=
  ⟨rfl, rfl, c4_set_repeat [10, 20, 30] demoPE 0 0 ActiveAnimation.default rfl rfl⟩

/-! ### C1 and C2: the movement direction -/

theorem Vec3.dot_self_pos {v : Vec3} (h : v ≠ Vec3.zero) : 0 < v.dot v := by
  have hor : v.x ≠ 0 ∨ v.y ≠ 0 ∨ v.z ≠ 0 := by
    rw [Vec3.ne_zero_iff] at h
    tauto
  unfold Vec3.dot
  rcases hor with hx | hy | hz
  · nlinarith [mul_self_nonneg v.y, mul_self_nonneg v.z, mul_self_pos.mpr hx]
  · nlinarith [mul_self_nonneg v.x, mul_self_nonneg v.z, mul_self_pos.mpr hy]
  · nlinarith [mul_self_nonneg v.x, mul_self_nonneg v.y, mul_self_pos.mpr hz]

theorem Vec3.normalize_length {v : Vec3} (h : v ≠ Vec3.zero) :
    v.normalize.length = 1 := by
  have hd : 0 < v.dot v := Vec3.dot_self_pos h
  have hl : 0 < v.length := Real.sqrt_pos.mpr hd
  have hl0 : v.length ≠ 0 := ne_of_gt hl
  have hll : v.length * v.length = v.x * v.x + v.y * v.y + v.z * v.z := by
    have hs := Real.mul_self_sqrt (le_of_lt hd)
    simpa [Vec3.length, Vec3.dot] using hs
  have hone : v.normalize.dot v.normalize = 1 := by
    show v.x / v.length * (v.x / v.length) + v.y / v.length * (v.y / v.length) +
      v.z / v.length * (v.z / v.length) = 1
    have hexp : v.x / v.length * (v.x / v.length) + v.y / v.length * (v.y / v.length) +
        v.z / v.length * (v.z / v.length) =
        (v.x * v.x + v.y * v.y + v.z * v.z) / (v.length * v.length) := by
      ring
    rw [hexp, ← hll, div_self (mul_ne_zero hl0 hl0)]
  show Real.sqrt (v.normalize.dot v.normalize) = 1
  rw [hone, Real.sqrt_one]

/-- C1: for every combination of the four directional keys whose summed axis
contributions are non-zero, the movement direction used by `move_fox` has unit
length, and the frame's displacement is exactly that unit direction scaled by
speed and delta time — so diagonal movement is as fast as axis-aligned
movement. -/
theorem c1_move_direction_unit : ∀ i : DirInput, rawDirection i ≠ Vec3.zero →
    (moveDirection i).length = 1 ∧
    ∀ (dt speed : ℝ) (t : Transform),
      (move_fox dt speed i t).translation =
        t.translation + moveDirection i * speed * dt := by
  intro i h
  constructor
  · show (if rawDirection i ≠ Vec3.zero then (rawDirection i).normalize
      else rawDirection i).length = 1
    rw [if_pos h]
    exact Vec3.normalize_length h
  · intro dt speed t
    rfl

theorem c1_move_direction_unit_witness :
    rawDirection inputW ≠ Vec3.zero ∧
    ((moveDirection inputW).length = 1 ∧
      ∀ (dt speed : ℝ) (t : Transform),
        (move_fox dt speed inputW t).translation =
          t.translation + moveDirection inputW * speed * dt) := by
  have hz : (rawDirection inputW).z = -1 := by
    simp [rawDirection, inputW]
  have h : rawDirection inputW ≠ Vec3.zero := by
    intro hc
    rw [hc] at hz
    simp only [Vec3.zero_z] at hz
    norm_num at hz
  exact ⟨h, c1_move_direction_unit inputW h⟩

theorem move_fox_zero_dir {i : DirInput} (h : rawDirection i = Vec3.zero) :
    ∀ (dt speed : ℝ) (t : Transform), move_fox dt speed i t = t := by
  intro dt speed t
  have hmd : moveDirection i = Vec3.zero := by
    show (if rawDirection i ≠ Vec3.zero then (rawDirection i).normalize
      else rawDirection i) = Vec3.zero
    rw [h]
    simp
  simp only [move_fox, hmd]
  have hz : Vec3.zero * speed * dt = Vec3.zero := by
    apply Vec3.ext <;> simp
  rw [hz]
  have ht : t.translation + Vec3.zero = t.translation := by
    apply Vec3.ext <;> simp
  rw [ht]
  simp

/-- C2: when exactly opposite key pairs are held (W with S, or A with D, or
all four), the summed direction is the zero vector and the `move_fox` frame
leaves the character's transform — position and orientation — unchanged. -/
theorem c2_opposite_keys_idle : ∀ (i : DirInput) (dt speed : ℝ) (t : Transform),
    ((i.w = true ∧ i.s = true ∧ i.a = false ∧ i.d = false) ∨
     (i.a = true ∧ i.d = true ∧ i.w = false ∧ i.s = false) ∨
     (i.w = true ∧ i.s = true ∧ i.a = true ∧ i.d = true)) →
    move_fox dt speed i t = t := by
  intro i dt speed t h
  have hz : rawDirection i = Vec3.zero := by
    rcases h with ⟨h1, h2, h3, h4⟩ | ⟨h1, h2, h3, h4⟩ | ⟨h1, h2, h3, h4⟩ <;>
      (apply Vec3.ext <;> simp [rawDirection, h1, h2, h3, h4])
  exact move_fox_zero_dir hz dt speed t

theorem c2_opposite_keys_idle_witness :
    (inputWS.w = true ∧ inputWS.s = true ∧ inputWS.a = false ∧ inputWS.d = false) ∧
    move_fox 1 5 inputWS demoCam = demoCam :=
  ⟨by decide, c2_opposite_keys_idle inputWS 1 5 demoCam (Or.inl (by decide))⟩

/-! ### C9: walking forward for one second -/

theorem negUnitZ_ne_zero : (⟨0, 0, -1⟩ : Vec3) ≠ Vec3.zero := by
  intro hc
  have hz := congrArg Vec3.z hc
  simp only [Vec3.zero_z] at hz
  norm_num at hz

theorem rawDirection_inputW : rawDirection inputW = ⟨0, 0, -1⟩ := by
  apply Vec3.ext <;> simp [rawDirection, inputW]

theorem moveDirection_inputW : moveDirection inputW = ⟨0, 0, -1⟩ := by
  show (if rawDirection inputW ≠ Vec3.zero then (rawDirection inputW).normalize
    else rawDirection inputW) = ⟨0, 0, -1⟩
  rw [rawDirection_inputW, if_pos negUnitZ_ne_zero]
  have hdot : (⟨0, 0, -1⟩ : Vec3).dot ⟨0, 0, -1⟩ = 1 := by
    unfold Vec3.dot
    norm_num
  have hlen : (⟨0, 0, -1⟩ : Vec3).length = 1 := by
    show Real.sqrt ((⟨0, 0, -1⟩ : Vec3).dot ⟨0, 0, -1⟩) = 1
    rw [hdot, Real.sqrt_one]
  apply Vec3.ext <;> simp [Vec3.normalize, hlen]

theorem atan2_zero_negOne : atan2 0 (-1) = Real.pi := by
  show Complex.arg ⟨-1, 0⟩ = Real.pi
  have hc : (⟨-1, 0⟩ : ℂ) = -1 := by
    apply Complex.ext <;> simp
  rw [hc, Complex.arg_neg_one]

theorem fromRotationY_negPi : Mat3.fromRotationY (-Real.pi) = Mat3.fromRotationY Real.pi := by
  unfold Mat3.fromRotationY
  apply Mat3.ext <;> (apply Vec3.ext <;> simp [Real.sin_pi])

theorem move_fox_W (dt : ℝ) (p : Vec3) (R : Mat3) :
    move_fox dt 5 inputW ⟨p, R⟩ =
      ⟨p + (⟨0, 0, -1⟩ : Vec3) * (5 : ℝ) * dt, Mat3.fromRotationY Real.pi⟩ := by
  simp only [move_fox, moveDirection_inputW]
  rw [if_pos negUnitZ_ne_zero]
  congr 1
  show Mat3.fromRotationY (-(atan2 0 (-1))) = Mat3.fromRotationY Real.pi
  rw [atan2_zero_negOne]
  exact fromRotationY_negPi

theorem foldl_W : ∀ (dts : List ℝ) (p : Vec3),
    dts.foldl (fun t dt => move_fox dt 5 inputW t) ⟨p, Mat3.fromRotationY Real.pi⟩ =
      ⟨p + (⟨0, 0, -5 * dts.sum⟩ : Vec3), Mat3.fromRotationY Real.pi⟩ := by
  intro dts
  induction dts with
  | nil =>
    intro p
    simp only [List.foldl_nil, List.sum_nil]
    congr 1
    apply Vec3.ext <;> simp
  | cons dt rest ih =>
    intro p
    simp only [List.foldl_cons, List.sum_cons]
    rw [move_fox_W, ih]
    congr 1
    apply Vec3.ext <;> (simp; try ring)

/-- C9: starting at the origin facing +Z (Bevy's convention: the forward axis
is the rotated −Z, so facing +Z is a yaw of π), holding only W for frames
whose delta times sum to one second at speed 5 moves the character to
(0, 0, −5) and leaves the yaw rotation equal to the initial facing (the code
rewrites the yaw to −π each frame, the same rotation as π). -/
theorem c9_walk_forward : ∀ dts : List ℝ, dts.sum = 1 →
    dts.foldl (fun t dt => move_fox dt 5 inputW t) originFacingPlusZ =
      { translation := ⟨0, 0, -5⟩, rotation := originFacingPlusZ.rotation } := by
  intro dts hsum
  show dts.foldl (fun t dt => move_fox dt 5 inputW t)
      ⟨Vec3.zero, Mat3.fromRotationY Real.pi⟩ =
    { translation := ⟨0, 0, -5⟩, rotation := originFacingPlusZ.rotation }
  rw [foldl_W, hsum]
  congr 1
  apply Vec3.ext <;> simp

theorem c9_walk_forward_witness :
    ([(1 : ℝ)].sum = 1) ∧
    [(1 : ℝ)].foldl (fun t dt => move_fox dt 5 inputW t) originFacingPlusZ =
      { translation := ⟨0, 0, -5⟩, rotation := originFacingPlusZ.rotation } :=
  ⟨by simp, c9_walk_forward [1] (by simp)⟩

/-! ### C5 and C6: the follow camera -/

theorem mulVec3_negUnitZ (m : Mat3) : m.mulVec3 ⟨0, 0, -1⟩ = -m.zAxis := by
  apply Vec3.ext <;> simp [Mat3.mulVec3]

theorem look_at_forward (t : Transform) (target up : Vec3)
    (h : target - t.translation ≠ Vec3.zero) :
    (t.look_at target up).forward = (target - t.translation).normalize := by
  have hz : (t.look_at target up).rotation.zAxis =
      -(if target - t.translation ≠ Vec3.zero then (target - t.translation).normalize
        else ⟨0, 0, -1⟩) := rfl
  show (t.look_at target up).rotation.mulVec3 ⟨0, 0, -1⟩ =
    (target - t.translation).normalize
  rw [mulVec3_negUnitZ, hz, if_pos h]
  apply Vec3.ext <;> simp

/-- C5: after a follow-camera update whose resulting camera position differs
from the fox position, the camera's forward axis (the rotated −Z) equals the
normalized vector from the camera to the fox: the look-at invariant. -/
theorem c5_camera_look_at : ∀ foxT camT : Transform,
    (follow_fox foxT camT).translation ≠ foxT.translation →
    (follow_fox foxT camT).forward =
      (foxT.translation - (follow_fox foxT camT).translation).normalize := by
  intro foxT camT h
  have hdir : foxT.translation - (follow_fox foxT camT).translation ≠ Vec3.zero := by
    intro hc
    exact h ((Vec3.sub_eq_zero_iff _ _).mp hc).symm
  exact look_at_forward _ foxT.translation ⟨0, 1, 0⟩ hdir

theorem c5_camera_look_at_witness :
    (follow_fox demoFox demoCam).translation ≠ demoFox.translation ∧
    (follow_fox demoFox demoCam).forward =
      (demoFox.translation - (follow_fox demoFox demoCam).translation).normalize := by
  have hy : (follow_fox demoFox demoCam).translation.y = 200 := by
    show (0 : ℝ) + 200 = 200
    norm_num
  have hne : (follow_fox demoFox demoCam).translation ≠ demoFox.translation := by
    intro hc
    have h2 := congrArg Vec3.y hc
    rw [hy] at h2
    have h0 : demoFox.translation.y = 0 := rfl
    rw [h0] at h2
    norm_num at h2
  exact ⟨hne, c5_camera_look_at demoFox demoCam hne⟩

/-- C6: every follow-camera update places the camera at the fixed offset:
the horizontal components are the fox position plus the fox's rotated +Z axis
scaled by the offset's backward component −300 (300 units back along it), and
the vertical component is the fox height plus the 200-unit height offset. -/
theorem c6_camera_offset : ∀ foxT camT : Transform,
    (follow_fox foxT camT).translation =
      ⟨foxT.translation.x + (foxT.rotation.mulVec3 ⟨0, 0, 1⟩).x * (-300),
       foxT.translation.y + 200,
       foxT.translation.z + (foxT.rotation.mulVec3 ⟨0, 0, 1⟩).z * (-300)⟩ := by
  intro foxT camT
  rfl

end FoxForNora
